import Mathlib

/-!
Verification of the scene-tree editor in `src/sketch.rs`.

The Rust source is shallowly embedded: `f32` values are modelled as exact
rationals (`ℚ`), `Vec<SceneObject>` as the forest type `SceneForest`,
`HashMap<u32, Vector2>` as an association list with overwrite-on-insert
semantics, and the raygui widget layer as opaque per-frame inputs, following
the capability surface the code consumes (`button -> bool`,
`toggle_group -> new index`, `slider -> new value`, `color_picker -> new
color`).  `Vector2::distance_to(p) < 20.0` is embedded as the equivalent
squared-distance comparison `distSq < 20^2` (square root is monotone on
nonnegative reals).
-/

/-- World/screen point, modelling raylib `Vector2` (f32 pair) over `ℚ`. -/
structure Vec2 where
  x : ℚ
  y : ℚ
deriving DecidableEq, Repr

/-- Rectangle, modelling raylib `Rectangle` (x, y, width, height). -/
structure Rect where
  x : ℚ
  y : ℚ
  w : ℚ
  h : ℚ
deriving DecidableEq, Repr

/-- `enum Shape { Square, Circle, Triangle }` from the source. -/
inductive Shape where
  | square
  | circle
  | triangle
deriving DecidableEq, Repr

/-- RGBA color, modelling raylib `Color` (four u8 channels). -/
structure Color where
  r : ℕ
  g : ℕ
  b : ℕ
  a : ℕ
deriving DecidableEq, Repr

def colorRed : Color := ⟨230, 41, 55, 255⟩

def colorBlue : Color := ⟨0, 121, 241, 255⟩

def colorGreen : Color := ⟨0, 228, 48, 255⟩

def colorYellow : Color := ⟨253, 249, 0, 255⟩

def colorOrange : Color := ⟨255, 161, 0, 255⟩

def colorPurple : Color := ⟨200, 122, 255, 255⟩

def colorWhite : Color := ⟨255, 255, 255, 255⟩

mutual
/-- `struct SceneObject` from the source: id, text, shape, color,
rotation_speed, current_rotation, children, text_buffer. -/
inductive SceneObject where
  | node : Nat → String → Shape → Color → ℚ → ℚ → SceneForest → String → SceneObject
deriving DecidableEq, Repr
/-- `Vec<SceneObject>`: an ordered sequence of scene objects. -/
inductive SceneForest where
  | nil : SceneForest
  | cons : SceneObject → SceneForest → SceneForest
deriving DecidableEq, Repr
end

def SceneObject.id : SceneObject → Nat
  | .node i _ _ _ _ _ _ _ => i

def SceneObject.text : SceneObject → String
  | .node _ t _ _ _ _ _ _ => t

def SceneObject.shape : SceneObject → Shape
  | .node _ _ sh _ _ _ _ _ => sh

def SceneObject.color : SceneObject → Color
  | .node _ _ _ c _ _ _ _ => c

def SceneObject.rotationSpeed : SceneObject → ℚ
  | .node _ _ _ _ rs _ _ _ => rs

def SceneObject.currentRotation : SceneObject → ℚ
  | .node _ _ _ _ _ cr _ _ => cr

def SceneObject.children : SceneObject → SceneForest
  | .node _ _ _ _ _ _ cs _ => cs

def SceneObject.textBuffer : SceneObject → String
  | .node _ _ _ _ _ _ _ tb => tb

def SceneObject.withText (o : SceneObject) (t : String) : SceneObject :=
  match o with
  | .node i _ sh c rs cr cs tb => .node i t sh c rs cr cs tb

def SceneObject.withTextBuffer (o : SceneObject) (tb : String) : SceneObject :=
  match o with
  | .node i t sh c rs cr cs _ => .node i t sh c rs cr cs tb

def SceneObject.withShape (o : SceneObject) (sh : Shape) : SceneObject :=
  match o with
  | .node i t _ c rs cr cs tb => .node i t sh c rs cr cs tb

def SceneObject.withColor (o : SceneObject) (c : Color) : SceneObject :=
  match o with
  | .node i t sh _ rs cr cs tb => .node i t sh c rs cr cs tb

def SceneObject.withRotationSpeed (o : SceneObject) (rs : ℚ) : SceneObject :=
  match o with
  | .node i t sh c _ cr cs tb => .node i t sh c rs cr cs tb

def SceneObject.withChildren (o : SceneObject) (cs : SceneForest) : SceneObject :=
  match o with
  | .node i t sh c rs cr _ tb => .node i t sh c rs cr cs tb

/-- `Vec::push` on a children vector: append one element at the end. -/
def SceneForest.appendOne : SceneForest → SceneObject → SceneForest
  | .nil, n => .cons n .nil
  | .cons o f, n => .cons o (f.appendOne n)

/-- `SceneObject::new`: default rotation_speed 20, current_rotation 0, no
children, text_buffer initialized to the text. -/
def SceneObject.new (i : Nat) (t : String) (sh : Shape) (c : Color) : SceneObject :=
  .node i t sh c 20 0 .nil t

/-- `enum EditorRequest { AddChild { parent_id }, DeleteNode { node_id } }`. -/
inductive EditorRequest where
  | addChild : Nat → EditorRequest
  | deleteNode : Nat → EditorRequest
deriving DecidableEq, Repr

/-- raylib `Camera2D`: target, offset, rotation, zoom. -/
structure Camera where
  target : Vec2
  offset : Vec2
  rotation : ℚ
  zoom : ℚ
deriving DecidableEq, Repr

/-- `struct State` from the source. -/
structure State where
  timeSinceLastUpdate : ℚ
  sceneObjects : SceneForest
  camera : Camera
  nextId : Nat
  activeSettingsId : Option Nat
  requests : List EditorRequest
  activeTextboxId : Option Nat
deriving DecidableEq, Repr

/-- `State::new_id`: increment `next_id`, then return it.  Returns the fresh
id together with the updated state. -/
def State.newId (s : State) : Nat × State :=
  (s.nextId + 1, { s with nextId := s.nextId + 1 })

/-- The seeded demo forest built by `State::new` (ids 1..6 as produced by the
six successive `new_id` calls). -/
def demoForest : SceneForest :=
  .cons
    ((SceneObject.new 1 "Root" .square colorRed).withChildren
      (.cons
        ((SceneObject.new 2 "Data" .circle colorBlue).withChildren
          (.cons (SceneObject.new 4 "Mesh" .square colorYellow)
            (.cons (SceneObject.new 5 "Texture" .triangle colorOrange) .nil)))
        (.cons
          ((SceneObject.new 3 "Render" .triangle colorGreen).withChildren
            (.cons (SceneObject.new 6 "Shader" .circle colorPurple) .nil))
          .nil)))
    .nil

/-- `State::new`: initial camera, `next_id = 6` after seeding, demo tree. -/
def State.new : State :=
  { timeSinceLastUpdate := 0
    sceneObjects := demoForest
    camera := { target := ⟨400, 450⟩, offset := ⟨1280 / 2, 720 / 2⟩, rotation := 0, zoom := 1 }
    nextId := 6
    activeSettingsId := none
    requests := []
    activeTextboxId := none }

/-! ## Views used in specifications: preorder node list and id list -/

mutual
/-- All nodes of a tree in depth-first pre-order (self, then children). -/
def preorderObj : SceneObject → List SceneObject
  | .node i t sh c rs cr cs tb => .node i t sh c rs cr cs tb :: preorderForest cs
/-- All nodes of a forest in depth-first pre-order. -/
def preorderForest : SceneForest → List SceneObject
  | .nil => []
  | .cons o f => preorderObj o ++ preorderForest f
end

/-- The ids of all nodes of a forest, in pre-order. -/
def idsForest (f : SceneForest) : List Nat :=
  (preorderForest f).map SceneObject.id

/-! ## Tree model operations -/

/-- `find_object_by_id_mut` (lookup part): depth-first pre-order search for
the first node with the given id. -/
def findObjectById : SceneForest → Nat → Option SceneObject
  | .nil, _ => none
  | .cons (.node j t sh c rs cr cs tb) f, i =>
    if j = i then some (.node j t sh c rs cr cs tb)
    else
      match findObjectById cs i with
      | some r => some r
      | none => findObjectById f i

/-- `find_object_by_id_mut` (mutation part): apply `g` to the first node found
by the same depth-first pre-order traversal; report whether a node was found. -/
def updateFirstById : SceneForest → Nat → (SceneObject → SceneObject) → SceneForest × Bool
  | .nil, _, _ => (.nil, false)
  | .cons (.node j t sh c rs cr cs tb) f, i, g =>
    if j = i then (.cons (g (.node j t sh c rs cr cs tb)) f, true)
    else
      let rc := updateFirstById cs i g
      if rc.2 then (.cons (.node j t sh c rs cr rc.1 tb) f, true)
      else
        let rf := updateFirstById f i g
        (.cons (.node j t sh c rs cr cs tb) rf.1, rf.2)

/-- The first phase of `find_and_delete_node`: `objects.iter().position(|o|
o.id == id)` followed by `objects.remove(index)` — remove the first node at
this level whose id matches, returning `none` when no node at this level
matches. -/
def removeAtLevel : SceneForest → Nat → Option SceneForest
  | .nil, _ => none
  | .cons o f, i =>
    if o.id = i then some f
    else (removeAtLevel f i).map (.cons o)

def sizeForest : SceneForest → Nat
  | .nil => 0
  | .cons (.node _ _ _ _ _ _ cs _) f => 1 + sizeForest cs + sizeForest f

mutual
/-- `find_and_delete_node`: first try to remove a match at this level, else
recurse into each object's children in order, stopping at the first success. -/
def findAndDeleteNode (f : SceneForest) (i : Nat) : SceneForest × Bool :=
  match removeAtLevel f i with
  | some f2 => (f2, true)
  | none => deleteInChildren f i
  termination_by (sizeForest f, 1)
/-- The recursion loop of `find_and_delete_node` over the children of each
object at the current level. -/
def deleteInChildren : SceneForest → Nat → SceneForest × Bool
  | .nil, _ => (.nil, false)
  | .cons (.node j t sh c rs cr cs tb) f, i =>
    let rc := findAndDeleteNode cs i
    if rc.2 then (.cons (.node j t sh c rs cr rc.1 tb) f, true)
    else
      let rf := deleteInChildren f i
      (.cons (.node j t sh c rs cr cs tb) rf.1, rf.2)
  termination_by f i => (sizeForest f, 0)
  decreasing_by
  · simp [sizeForest]; omega
  · simp [sizeForest]; omega
end

/-- `update_object_recursively` applied to every root (the loop in `step`):
`current_rotation += rotation_speed * dt`, recursively. -/
def updateForest : SceneForest → ℚ → SceneForest
  | .nil, _ => .nil
  | .cons (.node j t sh c rs cr cs tb) f, dt =>
    .cons (.node j t sh c rs (cr + rs * dt) (updateForest cs dt) tb) (updateForest f dt)

/-! ## Request queue -/

/-- One iteration of the loop body of `process_editor_requests`. -/
def applyRequest (s : State) (req : EditorRequest) : State :=
  match req with
  | .addChild pid =>
    let r0 := s.newId
    let s1 := r0.2
    let r := updateFirstById s1.sceneObjects pid
      (fun o => o.withChildren
        (o.children.appendOne (SceneObject.new r0.1 "New Node" .square colorWhite)))
    { s1 with sceneObjects := r.1 }
  | .deleteNode nid =>
    { s with sceneObjects := (findAndDeleteNode s.sceneObjects nid).1 }

/-- `process_editor_requests`: drain the queue, then apply each drained
request in FIFO order against the then-current tree. -/
def processEditorRequests (s : State) : State :=
  s.requests.foldl applyRequest { s with requests := [] }

/-- `step`: a no-op while a text box is active; otherwise advance every
rotation and process the request queue. -/
def step (s : State) (dt : ℚ) : State :=
  if s.activeTextboxId.isSome then s
  else processEditorRequests { s with sceneObjects := updateForest s.sceneObjects dt }

/-! ## Layout engine -/

/-- `X_SPACING` from `layout_recursive`. -/
def xSpacing : ℚ := 250

/-- `Y_SPACING` from `layout_recursive`. -/
def ySpacing : ℚ := 120

/-- The id-to-position mapping (`HashMap<u32, Vector2>`), modelled as an
association list whose `insert` overwrites an existing key in place and
otherwise appends. -/
abbrev PosMap := List (Nat × Vec2)

/-- `HashMap::insert`: overwrite the binding when the key is present,
otherwise add a new binding. -/
def insertPos (m : PosMap) (k : Nat) (v : Vec2) : PosMap :=
  if m.any (fun p => p.1 = k) then m.map (fun p => if p.1 = k then (k, v) else p)
  else m ++ [(k, v)]

/-- `HashMap::get`: the value bound to a key, if any. -/
def lookupPos : PosMap → Nat → Option Vec2
  | [], _ => none
  | p :: m, k => if p.1 = k then some p.2 else lookupPos m k

mutual
/-- `layout_recursive(obj, x, y_start, y_cursor, positions) -> my_height`.
The mutable `positions` map and `*y_cursor` are threaded explicitly: the
result is `(positions, my_height, *y_cursor on exit)`.  At every call site in
the source `*y_cursor == y_start` on entry; both parameters are kept because
the body reads `*y_cursor` (leaf position), not `y_start`. -/
def layoutRecursive : SceneObject → ℚ → ℚ → ℚ → PosMap → PosMap × ℚ × ℚ
  | .node i _ _ _ _ _ cs _, x, yStart, yCursor, m =>
    let r := layoutChildrenLoop cs (x + xSpacing) yStart m
    let myPos : Vec2 :=
      if cs ≠ .nil then ⟨x, yStart + r.2.1 / 2 - ySpacing / 2⟩ else ⟨x, yCursor⟩
    let m2 := insertPos r.1 i myPos
    let myHeight := if r.2.1 > 0 then r.2.1 else ySpacing
    (m2, myHeight, yStart + myHeight)
  termination_by structural o => o
/-- The `for child in &obj.children` loop of `layout_recursive` (also the
shape of the per-root loops in `draw` and `process_events_and_input`): each
element is laid out at the current cursor, which the call then advances.
Result: `(positions, children_height, cursor on exit)`. -/
def layoutChildrenLoop : SceneForest → ℚ → ℚ → PosMap → PosMap × ℚ × ℚ
  | .nil, _, yCur, m => (m, 0, yCur)
  | .cons o f, x, yCur, m =>
    let r1 := layoutRecursive o x yCur yCur m
    let r2 := layoutChildrenLoop f x r1.2.2 r1.1
    (r2.1, r1.2.1 + r2.2.1, r2.2.2)
  termination_by structural f => f
end

/-- The per-root layout loop from `draw` and from the click handler:
`start_y = 100.0`, every root at `x = 200.0`. -/
def layoutForest (f : SceneForest) : PosMap :=
  (layoutChildrenLoop f 200 100 []).1

/-! ## Hit testing -/

/-- The rendered shape size from `draw_world_object` (`let size = 40.0`). -/
def shapeSize : ℚ := 40

/-- The hit radius from `find_clicked_object` (`dist < 20.0`, "20.0 is half
the shape size"). -/
def clickRadius : ℚ := 20

/-- Squared Euclidean distance; `a.distance_to(b) < r` (for `r ≥ 0`) is
embedded as `distSq a b < r ^ 2`. -/
def distSq (a b : Vec2) : ℚ :=
  (a.x - b.x) ^ 2 + (a.y - b.y) ^ 2

mutual
/-- `find_clicked_object`: hit-test this node, then its children depth-first,
first match wins. -/
def findClickedObject : SceneObject → Vec2 → PosMap → Option Nat
  | .node i _ _ _ _ _ cs _, wp, m =>
    match lookupPos m i with
    | some q =>
      if distSq wp q < clickRadius ^ 2 then some i
      else findClickedLoop cs wp m
    | none => findClickedLoop cs wp m
  termination_by structural o => o
/-- The loop over a sequence of objects (children of a node, or the roots in
`process_events_and_input`), stopping at the first hit. -/
def findClickedLoop : SceneForest → Vec2 → PosMap → Option Nat
  | .nil, _, _ => none
  | .cons o f, wp, m =>
    match findClickedObject o wp m with
    | some r => some r
    | none => findClickedLoop f wp m
  termination_by structural f => f
end

/-! ## Camera and input -/

/-- `ZOOM_INCREMENT` from `process_events_and_input`. -/
def zoomIncrement : ℚ := 0.125

/-- `MIN_ZOOM` from `process_events_and_input`. -/
def minZoom : ℚ := 0.1

/-- `MAX_ZOOM` from `process_events_and_input`. -/
def maxZoom : ℚ := 2.0

/-- `f32::clamp`. -/
def ratClamp (v lo hi : ℚ) : ℚ :=
  if v < lo then lo else if v > hi then hi else v

/-- `screen_to_world`: `(screen_pos - offset) / zoom + target`. -/
def screenToWorld (p : Vec2) (cam : Camera) : Vec2 :=
  ⟨(p.x - cam.offset.x) / cam.zoom + cam.target.x,
   (p.y - cam.offset.y) / cam.zoom + cam.target.y⟩

/-- The per-frame input sampled by `process_events_and_input` from the
windowing layer. -/
structure FrameInput where
  mouseWheelMove : ℚ
  keyEqualDown : Bool
  keyMinusDown : Bool
  frameTime : ℚ
  rightMouseDown : Bool
  mouseDelta : Vec2
  leftMousePressed : Bool
  mousePosition : Vec2
  screenWidth : ℚ
deriving DecidableEq, Repr

/-- `process_events_and_input`: early return while a text box is active;
wheel/key zoom then clamp; right-button pan; left-click hit-test and select
(skipped over the settings panel area `x < 420`), recentering the camera on
the clicked node. -/
def processEventsAndInput (inp : FrameInput) (s : State) : State :=
  if s.activeTextboxId.isSome then s
  else
    let z1 :=
      if inp.mouseWheelMove ≠ 0 then
        s.camera.zoom + (if inp.mouseWheelMove > 0 then (1 : ℚ) else -1) * zoomIncrement
      else s.camera.zoom
    let z2 := if inp.keyEqualDown then z1 + 1 * inp.frameTime else z1
    let z3 := if inp.keyMinusDown then z2 - 1 * inp.frameTime else z2
    let z4 := ratClamp z3 minZoom maxZoom
    let tgt :=
      if inp.rightMouseDown then
        ⟨s.camera.target.x - inp.mouseDelta.x / z4, s.camera.target.y - inp.mouseDelta.y / z4⟩
      else s.camera.target
    let cam1 : Camera := { s.camera with target := tgt, zoom := z4 }
    let s1 := { s with camera := cam1 }
    if inp.leftMousePressed then
      if s1.activeSettingsId.isSome ∧ inp.mousePosition.x < 420 then s1
      else
        let wp := screenToWorld inp.mousePosition cam1
        let positions := layoutForest s1.sceneObjects
        match findClickedLoop s1.sceneObjects wp positions with
        | some i =>
          let s2 := { s1 with activeSettingsId := some i }
          match lookupPos positions i with
          | some objPos =>
            let viewportCenterX := (inp.screenWidth / 2 + inp.screenWidth) / 2
            let offX := (viewportCenterX - cam1.offset.x) / cam1.zoom
            { s2 with camera := { cam1 with target := ⟨objPos.x - offX, objPos.y⟩ } }
          | none => s2
        | none => s1
    else s1

/-! ## Settings panel and text box -/

/-- `check_collision_point_rec`. -/
def checkCollisionPointRec (p : Vec2) (r : Rect) : Bool :=
  decide (r.x ≤ p.x) && decide (p.x < r.x + r.w) && decide (r.y ≤ p.y) && decide (p.y < r.y + r.h)

/-- The per-frame input consumed by `draw_settings_panel`.  The raygui
widgets are opaque draw-and-report primitives, so each widget's report for
this frame is an input: `windowBoxClosed` for `gui_window_box`,
`shapeToggleResult` for the value `gui_toggle_group` leaves in its i32 slot,
`sliderResult` and `colorPickerResult` for the values those widgets produce,
and `addChildClicked`/`deleteNodeClicked` for the two `gui_button`s. -/
structure PanelInput where
  mousePosition : Vec2
  leftMousePressed : Bool
  charsPressed : List Char
  backspacePressedRepeat : Bool
  backspaceDown : Bool
  enterPressed : Bool
  windowBoxClosed : Bool
  shapeToggleResult : Int
  sliderResult : ℚ
  colorPickerResult : Color
  addChildClicked : Bool
  deleteNodeClicked : Bool
  screenHeight : ℚ
deriving DecidableEq, Repr

/-- `gui_text_box_safe`: while the mouse is over the bounds, append every
pressed character, pop the last character on backspace, and report Enter;
otherwise leave the buffer alone and report false. -/
def guiTextBoxSafe (inp : PanelInput) (bounds : Rect) (text : String) : String × Bool :=
  if checkCollisionPointRec inp.mousePosition bounds then
    let t1 := inp.charsPressed.foldl (fun t c => t.push c) text
    let t2 := if inp.backspacePressedRepeat || inp.backspaceDown then t1.dropRight 1 else t1
    (t2, inp.enterPressed)
  else (text, false)

/-- The `0 => Square, 1 => Circle, _ => Triangle` match applied to the value
left by `gui_toggle_group`. -/
def shapeFromIndex : Int → Shape
  | 0 => .square
  | 1 => .circle
  | _ => .triangle

/-- `draw_settings_panel`: window box (close clears the selection), the
"safe" text box with its three-way focus/commit logic, shape toggle, rotation
slider, color picker, and the Add Child / Delete Node buttons (delete also
clears the selection).  Result: (active_settings_id, requests,
active_textbox_id, obj). -/
def drawSettingsPanel (inp : PanelInput) (activeSettingsId : Option Nat)
    (requests : List EditorRequest) (activeTextboxId : Option Nat) (obj : SceneObject) :
    Option Nat × List EditorRequest × Option Nat × SceneObject :=
  let windowRect : Rect := ⟨20, 20, 400, inp.screenHeight - 2 * 20⟩
  let asid1 := if inp.windowBoxClosed then none else activeSettingsId
  let baseX := windowRect.x + 10
  let textboxBounds : Rect := ⟨baseX, windowRect.y + 40 + 25, windowRect.w - 20, 30⟩
  let tb := guiTextBoxSafe inp textboxBounds obj.textBuffer
  let obj1 := obj.withTextBuffer tb.1
  let r2 :=
    if tb.2 then (obj1.withText obj1.textBuffer, (none : Option Nat))
    else if checkCollisionPointRec inp.mousePosition textboxBounds && inp.leftMousePressed then
      (obj1, some obj1.id)
    else if activeTextboxId = some obj1.id ∧ inp.leftMousePressed then
      (obj1.withText obj1.textBuffer, none)
    else (obj1, activeTextboxId)
  let obj5 :=
    (((r2.1.withShape (shapeFromIndex inp.shapeToggleResult)).withRotationSpeed
        inp.sliderResult).withColor inp.colorPickerResult)
  let reqs1 := if inp.addChildClicked then requests ++ [.addChild obj5.id] else requests
  let r3 :=
    if inp.deleteNodeClicked then (reqs1 ++ [.deleteNode obj5.id], (none : Option Nat))
    else (reqs1, asid1)
  (r3.2, r3.1, r2.2, obj5)

/-- The state effect of the settings-panel section of `draw`: when a node is
selected and found, run `draw_settings_panel` against it and write the node
back through the same mutable-reference traversal. -/
def drawTick (inp : PanelInput) (s : State) : State :=
  match s.activeSettingsId with
  | none => s
  | some i =>
    match findObjectById s.sceneObjects i with
    | none => s
    | some obj =>
      let r := drawSettingsPanel inp s.activeSettingsId s.requests s.activeTextboxId obj
      { s with
        activeSettingsId := r.1
        requests := r.2.1
        activeTextboxId := r.2.2.1
        sceneObjects := (updateFirstById s.sceneObjects i (fun _ => r.2.2.2)).1 }

/-! ## Statement apparatus: id invariant, layout description, hit predicate -/

/-- The ids of a single tree, in pre-order. -/
def idsObj (o : SceneObject) : List Nat :=
  (preorderObj o).map SceneObject.id

/-- The id invariant claimed for the forest: every id lies in
`[1, next_id]` and the ids are pairwise distinct. -/
def idsInvariant (s : State) : Prop :=
  (∀ i ∈ idsForest s.sceneObjects, 1 ≤ i ∧ i ≤ s.nextId) ∧ (idsForest s.sceneObjects).Nodup

/-- Modelled from the spec: applying the same operations "sequentially and
immediately, each against the then-current tree" (no deferral). -/
def applySequentiallyImmediately (s : State) (ops : List EditorRequest) : State :=
  ops.foldl applyRequest s

mutual
/-- The claimed total vertical extent of one subtree: `Y_SPACING` for a leaf,
the sum of the children's extents otherwise. -/
def heightSpecObj : SceneObject → ℚ
  | .node _ _ _ _ _ _ cs _ => if cs ≠ .nil then heightsSumF cs else ySpacing
/-- Sum of the claimed vertical extents of a sequence of subtrees. -/
def heightsSumF : SceneForest → ℚ
  | .nil => 0
  | .cons o f => heightSpecObj o + heightsSumF f
end

mutual
/-- The claimed layout of one subtree rooted at column `x` with its vertical
band starting at `y0`: children recursively at `x + X_SPACING`, threaded by a
cursor that advances by each child's extent; a parent is centered at
`y0 + total_children_height/2 - Y_SPACING/2`; a leaf sits at the cursor. -/
def subtreeEntries : SceneObject → ℚ → ℚ → List (Nat × Vec2)
  | .node i _ _ _ _ _ cs _, x, y0 =>
    childrenEntries cs (x + xSpacing) y0 ++
      [(i, if cs ≠ .nil then ⟨x, y0 + heightsSumF cs / 2 - ySpacing / 2⟩ else ⟨x, y0⟩)]
/-- The claimed layout of a sequence of sibling subtrees: pre-order among
siblings, each next sibling starting where the previous subtree's band ends. -/
def childrenEntries : SceneForest → ℚ → ℚ → List (Nat × Vec2)
  | .nil, _, _ => []
  | .cons o f, x, y0 =>
    subtreeEntries o x y0 ++ childrenEntries f x (y0 + heightSpecObj o)
end

/-- Folding `HashMap::insert` over a list of entries. -/
def insertList (m : PosMap) (es : List (Nat × Vec2)) : PosMap :=
  es.foldl (fun acc e => insertPos acc e.1 e.2) m

/-- Whether the laid-out position of id `i` lies within the click radius of
`wp` (false when `i` has no position). -/
def hitTest (m : PosMap) (wp : Vec2) (i : Nat) : Bool :=
  match lookupPos m i with
  | some q => decide (distSq wp q < clickRadius ^ 2)
  | none => false

/-- The label text-field bounds computed inside `draw_settings_panel`
(`Rectangle::new(base_x, current_y, window_rect.width - 20.0, 30.0)` with
`base_x = 30`, `current_y = 85`); independent of the screen height. -/
def labelFieldBounds : Rect := ⟨30, 85, 380, 30⟩

/-! ## Helper lemmas -/

theorem ratClamp_bounds (v : ℚ) : minZoom ≤ ratClamp v minZoom maxZoom ∧ ratClamp v minZoom maxZoom ≤ maxZoom := by
  unfold ratClamp minZoom maxZoom
  split_ifs with ha hb <;> norm_num at ha ⊢ <;> try norm_num at hb
  all_goals constructor <;> linarith

theorem pei_zoom_bounds (inp : FrameInput) (s : State)
    (h1 : minZoom ≤ s.camera.zoom) (h2 : s.camera.zoom ≤ maxZoom) :
    minZoom ≤ (processEventsAndInput inp s).camera.zoom ∧
      (processEventsAndInput inp s).camera.zoom ≤ maxZoom := by
  unfold processEventsAndInput
  split
  · exact ⟨h1, h2⟩
  · simp only
    split
    · split
      · exact ratClamp_bounds _
      · split
        · split
          · exact ratClamp_bounds _
          · exact ratClamp_bounds _
        · exact ratClamp_bounds _
    · exact ratClamp_bounds _

/-! ## Claim C6 -/

/-- C6: for every sequence of per-frame zoom adjustments (wheel steps of
0.125 per notch, or key-held adjustment scaled by frame time), the camera
zoom never leaves `[0.1, 2.0]` when it starts in that range. -/
theorem c6_zoom_always_clamped (inps : List FrameInput) (s : State)
    (h1 : minZoom ≤ s.camera.zoom) (h2 : s.camera.zoom ≤ maxZoom) :
    minZoom ≤ (inps.foldl (fun t i => processEventsAndInput i t) s).camera.zoom ∧
      (inps.foldl (fun t i => processEventsAndInput i t) s).camera.zoom ≤ maxZoom := by
  induction inps generalizing s with
  | nil => exact ⟨h1, h2⟩
  | cons i rest ih =>
    exact ih _ (pei_zoom_bounds i s h1 h2).1 (pei_zoom_bounds i s h1 h2).2

/-- Witness for C6 at a concrete input: ten maximal wheel-up frames from the
initial state keep the zoom inside the clamp range. -/
theorem c6_witness :
    minZoom ≤ (State.new.camera.zoom) ∧ State.new.camera.zoom ≤ maxZoom ∧
      minZoom ≤
        ((List.replicate 10 (⟨5, false, false, 0, false, ⟨0, 0⟩, false, ⟨0, 0⟩, 1280⟩ :
              FrameInput)).foldl (fun t i => processEventsAndInput i t) State.new).camera.zoom ∧
      ((List.replicate 10 (⟨5, false, false, 0, false, ⟨0, 0⟩, false, ⟨0, 0⟩, 1280⟩ :
              FrameInput)).foldl (fun t i => processEventsAndInput i t) State.new).camera.zoom ≤
        maxZoom := by
  have h1 : minZoom ≤ State.new.camera.zoom := by norm_num [State.new, minZoom]
  have h2 : State.new.camera.zoom ≤ maxZoom := by norm_num [State.new, maxZoom]
  have h3 := c6_zoom_always_clamped
    (List.replicate 10 (⟨5, false, false, 0, false, ⟨0, 0⟩, false, ⟨0, 0⟩, 1280⟩ : FrameInput))
    State.new h1 h2
  exact ⟨h1, h2, h3.1, h3.2⟩

/-! ## Claim C9 -/

/-- C9: while a text box is active (`active_textbox_id.is_some()`), the
input-processing pass is the identity on the whole state — in particular the
camera (target, offset, zoom) and the selection `active_settings_id` are
unchanged. -/
theorem c9_input_suppressed_while_editing (inp : FrameInput) (s : State) (i : Nat)
    (h : s.activeTextboxId = some i) : processEventsAndInput inp s = s := by
  unfold processEventsAndInput
  simp [h]

/-- Witness for C9 at a concrete input: a frame with wheel scroll, pan drag
and a left click changes nothing while node 2's label is being edited. -/
theorem c9_witness :
    processEventsAndInput ⟨5, true, false, 1, true, ⟨3, 4⟩, true, ⟨500, 300⟩, 1280⟩
        { State.new with activeTextboxId := some 2 } =
      { State.new with activeTextboxId := some 2 } :=
  c9_input_suppressed_while_editing _ _ 2 rfl

/-! ## Claim C10 -/

/-- C10: while a text box is active, `step` is a no-op on the whole editor
state: no rotation advances and the request queue is not drained, so queued
structural mutations take effect only after editing ends. -/
theorem c10_step_noop_while_editing (s : State) (dt : ℚ) (i : Nat)
    (h : s.activeTextboxId = some i) : step s dt = s := by
  unfold step
  simp [h]

/-- Witness for C10 at a concrete input: with a pending `DeleteNode` request
and node 2 under edit, `step` leaves the state (queue included) untouched. -/
theorem c10_witness :
    step { State.new with activeTextboxId := some 2, requests := [.deleteNode 1] } (1 / 60) =
      { State.new with activeTextboxId := some 2, requests := [.deleteNode 1] } :=
  c10_step_noop_while_editing _ _ 2 rfl

/-! ## Id-list computation lemmas -/

theorem idsForest_nil : idsForest .nil = [] := rfl

theorem idsObj_node (j : Nat) (t : String) (sh : Shape) (c : Color) (rs cr : ℚ)
    (cs : SceneForest) (tb : String) :
    idsObj (.node j t sh c rs cr cs tb) = j :: idsForest cs := by
  simp [idsObj, idsForest, preorderObj, SceneObject.id]

theorem idsForest_cons (o : SceneObject) (f : SceneForest) :
    idsForest (.cons o f) = idsObj o ++ idsForest f := by
  simp [idsForest, idsObj, preorderForest]

/-! ## `updateFirstById` lemmas -/

theorem updateFirstById_fst_of_snd_false :
    ∀ (f : SceneForest) (i : Nat) (g : SceneObject → SceneObject),
      (updateFirstById f i g).2 = false → (updateFirstById f i g).1 = f
  | .nil, _, _, _ => rfl
  | .cons (.node j t sh c rs cr cs tb) f, i, g, h => by
    by_cases hj : j = i
    · simp [updateFirstById, hj] at h
    · cases hrc : (updateFirstById cs i g).2 with
      | true => simp [updateFirstById, hj, hrc] at h
      | false =>
        have h1 := updateFirstById_fst_of_snd_false cs i g hrc
        simp only [updateFirstById, hj, if_false, hrc, Bool.false_eq_true] at h ⊢
        cases hrf : (updateFirstById f i g).2 with
        | true => rw [hrf] at h; simp at h
        | false =>
          have h2 := updateFirstById_fst_of_snd_false f i g hrf
          simp [h1, h2]

theorem updateFirstById_snd_false_of_not_mem :
    ∀ (f : SceneForest) (i : Nat) (g : SceneObject → SceneObject),
      i ∉ idsForest f → (updateFirstById f i g).2 = false
  | .nil, _, _, _ => rfl
  | .cons (.node j t sh c rs cr cs tb) f, i, g, h => by
    rw [idsForest_cons, idsObj_node] at h
    simp only [List.mem_cons, List.mem_append] at h
    push_neg at h
    obtain ⟨⟨hj, hcs⟩, hf⟩ := h
    have hji : ¬ j = i := fun he => hj he.symm
    have h1 := updateFirstById_snd_false_of_not_mem cs i g hcs
    have h2 := updateFirstById_snd_false_of_not_mem f i g hf
    simp [updateFirstById, hji, h1, h2]

/-! ## delete lemmas -/

theorem removeAtLevel_none_of_not_mem :
    ∀ (f : SceneForest) (i : Nat), i ∉ idsForest f → removeAtLevel f i = none
  | .nil, _, _ => rfl
  | .cons (.node j t sh c rs cr cs tb) f, i, h => by
    rw [idsForest_cons, idsObj_node] at h
    simp only [List.mem_cons, List.mem_append] at h
    push_neg at h
    obtain ⟨⟨hj, _⟩, hf⟩ := h
    have hji : ¬ j = i := fun he => hj he.symm
    have h2 := removeAtLevel_none_of_not_mem f i hf
    simp [removeAtLevel, SceneObject.id, hji, h2]

mutual
theorem findAndDeleteNode_eq_of_not_mem :
    ∀ (f : SceneForest) (i : Nat), i ∉ idsForest f → findAndDeleteNode f i = (f, false)
  | f, i, h => by
    rw [findAndDeleteNode, removeAtLevel_none_of_not_mem f i h]
    exact deleteInChildren_eq_of_not_mem f i h
  termination_by f _ _ => (sizeForest f, 1)
theorem deleteInChildren_eq_of_not_mem :
    ∀ (f : SceneForest) (i : Nat), i ∉ idsForest f → deleteInChildren f i = (f, false)
  | .nil, _, _ => by rw [deleteInChildren]
  | .cons (.node j t sh c rs cr cs tb) f, i, h => by
    rw [idsForest_cons, idsObj_node] at h
    simp only [List.mem_cons, List.mem_append] at h
    push_neg at h
    obtain ⟨⟨_, hcs⟩, hf⟩ := h
    have h1 := findAndDeleteNode_eq_of_not_mem cs i hcs
    have h2 := deleteInChildren_eq_of_not_mem f i hf
    simp [deleteInChildren, h1, h2]
  termination_by f _ _ => (sizeForest f, 0)
  decreasing_by
  · simp [sizeForest]; omega
  · simp [sizeForest]; omega
end

/-! ## Request-queue lemmas -/

theorem applyRequest_requests (s : State) (r : EditorRequest) :
    (applyRequest s r).requests = s.requests := by
  cases r <;> simp [applyRequest, State.newId]

theorem applyRequest_set_requests (s : State) (r : EditorRequest) (l : List EditorRequest) :
    applyRequest { s with requests := l } r = { applyRequest s r with requests := l } := by
  cases r <;> simp [applyRequest, State.newId]

theorem foldl_applyRequest_set_requests (ops : List EditorRequest) (s : State)
    (l : List EditorRequest) :
    ops.foldl applyRequest { s with requests := l } =
      { ops.foldl applyRequest s with requests := l } := by
  induction ops generalizing s with
  | nil => rfl
  | cons r rest ih => simp only [List.foldl_cons, applyRequest_set_requests, ih]

/-! ## Claim C2 -/

/-- C2: draining the queue once in FIFO order produces the same state as
applying the same operations sequentially and immediately, each against the
then-current tree; and a request whose target id is no longer in the forest
(for example removed by an earlier request of the same drain) has no effect
on the tree. -/
theorem c2_drain_equals_immediate (s : State) (ops : List EditorRequest)
    (h : s.requests = []) :
    processEditorRequests { s with requests := ops } =
        { applySequentiallyImmediately s ops with requests := [] } ∧
      (∀ (s2 : State) (i : Nat), i ∉ idsForest s2.sceneObjects →
        (applyRequest s2 (.deleteNode i)).sceneObjects = s2.sceneObjects) ∧
      (∀ (s2 : State) (p : Nat), p ∉ idsForest s2.sceneObjects →
        (applyRequest s2 (.addChild p)).sceneObjects = s2.sceneObjects) := by
  refine ⟨?_, ?_, ?_⟩
  · have h1 : processEditorRequests { s with requests := ops } =
        ops.foldl applyRequest { s with requests := [] } := rfl
    rw [h1, foldl_applyRequest_set_requests]
    rfl
  · intro s2 i hmem
    simp [applyRequest, findAndDeleteNode_eq_of_not_mem s2.sceneObjects i hmem]
  · intro s2 p hmem
    have h2 := updateFirstById_snd_false_of_not_mem s2.sceneObjects p
      (fun o => o.withChildren
        (o.children.appendOne (SceneObject.new (s2.newId).1 "New Node" .square colorWhite))) hmem
    have h3 := updateFirstById_fst_of_snd_false s2.sceneObjects p
      (fun o => o.withChildren
        (o.children.appendOne (SceneObject.new (s2.newId).1 "New Node" .square colorWhite))) h2
    simp [applyRequest, State.newId] at h3 ⊢
    exact h3

/-- Witness for C2 at a concrete input: from the seeded state, enqueuing an
`AddChild` for node 2 and a `DeleteNode` for node 3 and draining once equals
the immediate sequential application. -/
theorem c2_witness :
    processEditorRequests { State.new with requests := [.addChild 2, .deleteNode 3] } =
      { applySequentiallyImmediately State.new [.addChild 2, .deleteNode 3] with
        requests := [] } :=
  (c2_drain_equals_immediate State.new [.addChild 2, .deleteNode 3] rfl).1

/-! ## Id bookkeeping lemmas for AddChild / DeleteNode -/

theorem perm_insert_mid (j : Nat) (A B F : List Nat) :
    (j :: (A ++ (B ++ F))).Perm (B ++ (j :: (A ++ F))) :=
  ((List.perm_append_comm_assoc A B F).cons j).trans List.perm_middle.symm

theorem idsForest_appendOne :
    ∀ (f : SceneForest) (n : SceneObject),
      idsForest (f.appendOne n) = idsForest f ++ idsObj n
  | .nil, n => by simp [SceneForest.appendOne, idsForest_cons, idsForest_nil]
  | .cons o f, n => by
    simp [SceneForest.appendOne, idsForest_cons, idsForest_appendOne f n, List.append_assoc]

theorem updateFirstById_push_perm :
    ∀ (f : SceneForest) (pid : Nat) (nn : SceneObject),
      (updateFirstById f pid (fun o => o.withChildren (o.children.appendOne nn))).2 = true →
      (idsForest
          (updateFirstById f pid (fun o => o.withChildren (o.children.appendOne nn))).1).Perm
        (idsObj nn ++ idsForest f)
  | .nil, pid, nn, h => by simp [updateFirstById] at h
  | .cons (.node j t sh c rs cr cs tb) f, pid, nn, h => by
    by_cases hj : j = pid
    · simp only [updateFirstById, hj, if_true, SceneObject.withChildren, SceneObject.children,
        idsForest_cons, idsObj_node, idsForest_appendOne]
      have := perm_insert_mid j (idsForest cs) (idsObj nn) (idsForest f)
      simpa [List.append_assoc, hj] using this
    · cases hrc : (updateFirstById cs pid (fun o => o.withChildren (o.children.appendOne nn))).2 with
      | true =>
        have ih := updateFirstById_push_perm cs pid nn hrc
        simp only [updateFirstById, hj, if_false, hrc, if_true, idsForest_cons, idsObj_node]
        have h2 : (j :: (idsForest
            (updateFirstById cs pid (fun o => o.withChildren (o.children.appendOne nn))).1 ++
              idsForest f)).Perm
            (j :: ((idsObj nn ++ idsForest cs) ++ idsForest f)) :=
          ((ih.append_right (idsForest f)).cons j)
        refine h2.trans ?_
        have h3 := (@List.perm_middle Nat j (idsObj nn) (idsForest cs ++ idsForest f)).symm
        simpa [List.append_assoc] using h3
      | false =>
        cases hrf : (updateFirstById f pid (fun o => o.withChildren (o.children.appendOne nn))).2 with
        | false => simp [updateFirstById, hj, hrc, hrf] at h
        | true =>
          have ih := updateFirstById_push_perm f pid nn hrf
          simp only [updateFirstById, hj, if_false, hrc, Bool.false_eq_true, if_false,
            idsForest_cons, idsObj_node]
          have h2 : (j :: (idsForest cs ++ idsForest
              (updateFirstById f pid (fun o => o.withChildren (o.children.appendOne nn))).1)).Perm
              (j :: (idsForest cs ++ (idsObj nn ++ idsForest f))) :=
            ((ih.append_left (idsForest cs)).cons j)
        
          exact h2.trans (perm_insert_mid j (idsForest cs) (idsObj nn) (idsForest f))

theorem removeAtLevel_ids_sublist :
    ∀ (f : SceneForest) (i : Nat) (f2 : SceneForest), removeAtLevel f i = some f2 →
      (idsForest f2).Sublist (idsForest f)
  | .nil, _, _, h => by simp [removeAtLevel] at h
  | .cons o f, i, f2, h => by
    rw [removeAtLevel] at h
    by_cases ho : o.id = i
    · simp only [ho, if_true, Option.some.injEq] at h
      subst h
      rw [idsForest_cons]
      exact List.sublist_append_right _ _
    · simp only [ho, if_false, Option.map_eq_some'] at h
      obtain ⟨f3, h3, rfl⟩ := h
      rw [idsForest_cons, idsForest_cons]
      exact (removeAtLevel_ids_sublist f i f3 h3).append_left _

mutual
theorem findAndDeleteNode_ids_sublist :
    ∀ (f : SceneForest) (i : Nat),
      (idsForest (findAndDeleteNode f i).1).Sublist (idsForest f)
  | f, i => by
    cases h : removeAtLevel f i with
    | some f2 =>
      rw [findAndDeleteNode, h]
      exact removeAtLevel_ids_sublist f i f2 h
    | none =>
      rw [findAndDeleteNode, h]
      exact deleteInChildren_ids_sublist f i
  termination_by f _ => (sizeForest f, 1)
theorem deleteInChildren_ids_sublist :
    ∀ (f : SceneForest) (i : Nat),
      (idsForest (deleteInChildren f i).1).Sublist (idsForest f)
  | .nil, _ => by rw [deleteInChildren]
  | .cons (.node j t sh c rs cr cs tb) f, i => by
    rw [deleteInChildren]
    have h1 := findAndDeleteNode_ids_sublist cs i
    have h2 := deleteInChildren_ids_sublist f i
    cases hrc : (findAndDeleteNode cs i).2 with
    | true =>
      simp only [hrc, if_true, idsForest_cons, idsObj_node]
      exact List.Sublist.append (h1.cons₂ j) (List.Sublist.refl _)
    | false =>
      simp only [hrc, Bool.false_eq_true, if_false, idsForest_cons, idsObj_node]
      exact (h2.append_left _)
  termination_by f _ => (sizeForest f, 0)
  decreasing_by
  · simp [sizeForest]; omega
  · simp [sizeForest]; omega
end

/-! ## Claim C8 -/

/-- C8: node ids are unique, monotonically assigned and never reused:
`new_id` returns `next_id + 1` (strictly above the counter, which every
earlier return is at most, since `next_id` never decreases) and stores it
back; `applyRequest` never decreases `next_id`; the invariant "every forest
id lies in `[1, next_id]` and the ids are pairwise distinct" is preserved by
every `AddChild`/`DeleteNode` application and holds initially. -/
theorem c8_ids_unique_monotone :
    (∀ s : State, (s.newId).1 = s.nextId + 1 ∧ s.nextId < (s.newId).1 ∧
      (s.newId).2.nextId = (s.newId).1) ∧
    (∀ (s : State) (r : EditorRequest), s.nextId ≤ (applyRequest s r).nextId) ∧
    (∀ (s : State) (r : EditorRequest), idsInvariant s → idsInvariant (applyRequest s r)) ∧
    idsInvariant State.new := by
  refine ⟨?_, ?_, ?_, ?_⟩
  · intro s
    exact ⟨rfl, Nat.lt_succ_self _, rfl⟩
  · intro s r
    cases r <;> simp [applyRequest, State.newId]
  · intro s r hinv
    obtain ⟨hbound, hnodup⟩ := hinv
    cases r with
    | deleteNode i =>
      refine ⟨?_, ?_⟩
      · intro j hj
        have hsub := findAndDeleteNode_ids_sublist s.sceneObjects i
        have : j ∈ idsForest s.sceneObjects := hsub.subset hj
        simpa [applyRequest] using hbound j this
      · have hsub := findAndDeleteNode_ids_sublist s.sceneObjects i
        simpa [applyRequest] using hnodup.sublist hsub
    | addChild pid =>
      have hnew : idsObj (SceneObject.new (s.nextId + 1) "New Node" .square colorWhite) =
          [s.nextId + 1] := by
        simp [SceneObject.new, idsObj_node, idsForest_nil]
      cases hfound : (updateFirstById s.sceneObjects pid
          (fun o => o.withChildren (o.children.appendOne
            (SceneObject.new (s.nextId + 1) "New Node" .square colorWhite)))).2 with
      | false =>
        have heq := updateFirstById_fst_of_snd_false s.sceneObjects pid _ hfound
        refine ⟨?_, ?_⟩
        · intro j hj
          rw [applyRequest] at hj ⊢
          simp only [State.newId] at hj ⊢
          rw [heq] at hj
          exact ⟨(hbound j hj).1, le_trans (hbound j hj).2 (Nat.le_succ _)⟩
        · rw [applyRequest]
          simp only [State.newId]
          rw [heq]
          exact hnodup
      | true =>
        have hperm := updateFirstById_push_perm s.sceneObjects pid
          (SceneObject.new (s.nextId + 1) "New Node" .square colorWhite) hfound
        rw [hnew] at hperm
        refine ⟨?_, ?_⟩
        · intro j hj
          rw [applyRequest] at hj ⊢
          simp only [State.newId] at hj ⊢
          have hj2 : j ∈ (s.nextId + 1) :: idsForest s.sceneObjects := by
            have := hperm.mem_iff.mp hj
            simpa using this
          rcases List.mem_cons.mp hj2 with hje | hjm
          · subst hje
            exact ⟨Nat.succ_le_succ (Nat.zero_le _), le_refl _⟩
          · exact ⟨(hbound j hjm).1, le_trans (hbound j hjm).2 (Nat.le_succ _)⟩
        · rw [applyRequest]
          simp only [State.newId]
          refine (hperm.nodup_iff).mpr ?_
          refine List.Nodup.cons ?_ hnodup
          intro hmem
          have hmem2 : s.nextId + 1 ∈ idsForest s.sceneObjects := by simpa using hmem
          have := (hbound _ hmem2).2
          omega
  · constructor
    · intro i hi
      have : idsForest State.new.sceneObjects = [1, 2, 4, 5, 3, 6] := by decide
      rw [this] at hi
      fin_cases hi <;> simp [State.new]
    · have : idsForest State.new.sceneObjects = [1, 2, 4, 5, 3, 6] := by decide
      rw [this]
      decide

/-- Witness for C8 at a concrete input: the invariant holds for the seeded
state and is preserved by adding a child to node 2. -/
theorem c8_witness :
    idsInvariant State.new ∧ idsInvariant (applyRequest State.new (.addChild 2)) :=
  ⟨c8_ids_unique_monotone.2.2.2,
   c8_ids_unique_monotone.2.2.1 State.new (.addChild 2) c8_ids_unique_monotone.2.2.2⟩

/-! ## Accessor lemmas for the panel mutations -/

@[simp]
theorem SceneObject.id_withTextBuffer (o : SceneObject) (tb : String) :
    (o.withTextBuffer tb).id = o.id := by
  cases o; rfl

@[simp]
theorem SceneObject.text_withTextBuffer (o : SceneObject) (tb : String) :
    (o.withTextBuffer tb).text = o.text := by
  cases o; rfl

@[simp]
theorem SceneObject.textBuffer_withTextBuffer (o : SceneObject) (tb : String) :
    (o.withTextBuffer tb).textBuffer = tb := by
  cases o; rfl

@[simp]
theorem SceneObject.id_withText (o : SceneObject) (t : String) :
    (o.withText t).id = o.id := by
  cases o; rfl

@[simp]
theorem SceneObject.text_withText (o : SceneObject) (t : String) :
    (o.withText t).text = t := by
  cases o; rfl

@[simp]
theorem SceneObject.textBuffer_withText (o : SceneObject) (t : String) :
    (o.withText t).textBuffer = o.textBuffer := by
  cases o; rfl

@[simp]
theorem SceneObject.id_withShape (o : SceneObject) (sh : Shape) :
    (o.withShape sh).id = o.id := by
  cases o; rfl

@[simp]
theorem SceneObject.text_withShape (o : SceneObject) (sh : Shape) :
    (o.withShape sh).text = o.text := by
  cases o; rfl

@[simp]
theorem SceneObject.textBuffer_withShape (o : SceneObject) (sh : Shape) :
    (o.withShape sh).textBuffer = o.textBuffer := by
  cases o; rfl

@[simp]
theorem SceneObject.id_withRotationSpeed (o : SceneObject) (rs : ℚ) :
    (o.withRotationSpeed rs).id = o.id := by
  cases o; rfl

@[simp]
theorem SceneObject.text_withRotationSpeed (o : SceneObject) (rs : ℚ) :
    (o.withRotationSpeed rs).text = o.text := by
  cases o; rfl

@[simp]
theorem SceneObject.textBuffer_withRotationSpeed (o : SceneObject) (rs : ℚ) :
    (o.withRotationSpeed rs).textBuffer = o.textBuffer := by
  cases o; rfl

@[simp]
theorem SceneObject.id_withColor (o : SceneObject) (c : Color) :
    (o.withColor c).id = o.id := by
  cases o; rfl

@[simp]
theorem SceneObject.text_withColor (o : SceneObject) (c : Color) :
    (o.withColor c).text = o.text := by
  cases o; rfl

@[simp]
theorem SceneObject.textBuffer_withColor (o : SceneObject) (c : Color) :
    (o.withColor c).textBuffer = o.textBuffer := by
  cases o; rfl

theorem panel_textboxBounds :
    (⟨20 + 10, 20 + 40 + 25, 400 - 20, 30⟩ : Rect) = labelFieldBounds := by
  norm_num [labelFieldBounds]

/-! ## Claim C5 (corrected) -/

/-- C5 counterexample: with node 1's label in the Editing state
(`active_textbox_id = some 1`, edit buffer "Hello", committed label "Old"),
pressing Enter while the mouse is outside the label field commits nothing:
the state machine stays `Editing(1)` and the label keeps "Old", contradicting
the claim that pressing the commit key transitions to Idle and sets
`label := edit_buffer`. -/
theorem c5_counterexample :
    (drawSettingsPanel
          ⟨⟨0, 0⟩, false, [], false, false, true, false, 0, 20, colorWhite, false, false, 720⟩
          (some 1) [] (some 1) (.node 1 "Old" .square colorWhite 20 0 .nil "Hello")).2.2.1 =
        some 1 ∧
      (drawSettingsPanel
          ⟨⟨0, 0⟩, false, [], false, false, true, false, 0, 20, colorWhite, false, false, 720⟩
          (some 1) [] (some 1) (.node 1 "Old" .square colorWhite 20 0 .nil "Hello")).2.2.2.text =
        "Old" ∧
      (drawSettingsPanel
          ⟨⟨0, 0⟩, false, [], false, false, true, false, 0, 20, colorWhite, false, false, 720⟩
          (some 1) [] (some 1)
          (.node 1 "Old" .square colorWhite 20 0 .nil "Hello")).2.2.2.textBuffer =
        "Hello" := by
  norm_num [drawSettingsPanel, guiTextBoxSafe, checkCollisionPointRec, SceneObject.id,
    SceneObject.text, SceneObject.textBuffer, SceneObject.withShape, SceneObject.withRotationSpeed,
    SceneObject.withColor, SceneObject.withTextBuffer, shapeFromIndex]

/-- C5 amended: when node `obj` is in the Editing state, pressing Enter
*while the pointer is over the label field*, or clicking while the pointer is
outside the field, transitions to Idle (`active_textbox_id := none`) and sets
the committed label to the current contents of the edit buffer. -/
theorem c5_commit_amended (inp : PanelInput) (asid : Option Nat)
    (reqs : List EditorRequest) (obj : SceneObject)
    (hcommit :
      (checkCollisionPointRec inp.mousePosition labelFieldBounds = true ∧
        inp.enterPressed = true) ∨
      (checkCollisionPointRec inp.mousePosition labelFieldBounds = false ∧
        inp.leftMousePressed = true)) :
    (drawSettingsPanel inp asid reqs (some obj.id) obj).2.2.1 = none ∧
      (drawSettingsPanel inp asid reqs (some obj.id) obj).2.2.2.text =
        (drawSettingsPanel inp asid reqs (some obj.id) obj).2.2.2.textBuffer := by
  unfold drawSettingsPanel guiTextBoxSafe
  rcases hcommit with ⟨hc, he⟩ | ⟨hc, hp⟩
  · have hc2 : checkCollisionPointRec inp.mousePosition ⟨20 + 10, 20 + 40 + 25, 400 - 20, 30⟩ =
        true := by rw [panel_textboxBounds]; exact hc
    simp [hc2, he]
  · have hc2 : checkCollisionPointRec inp.mousePosition ⟨20 + 10, 20 + 40 + 25, 400 - 20, 30⟩ =
        false := by rw [panel_textboxBounds]; exact hc
    simp [hc2, hp]

/-- Witness for the amended C5: node 1 in Editing state with buffer "Hello",
a click with the pointer at the origin (outside the field) commits: focus
cleared and label equal to the buffer. -/
theorem c5_witness :
    (drawSettingsPanel
          ⟨⟨0, 0⟩, true, [], false, false, false, false, 0, 20, colorWhite, false, false, 720⟩
          (some 1) [] (some 1) (.node 1 "Old" .square colorWhite 20 0 .nil "Hello")).2.2.1 =
        none ∧
      (drawSettingsPanel
          ⟨⟨0, 0⟩, true, [], false, false, false, false, 0, 20, colorWhite, false, false, 720⟩
          (some 1) [] (some 1) (.node 1 "Old" .square colorWhite 20 0 .nil "Hello")).2.2.2.text =
        (drawSettingsPanel
          ⟨⟨0, 0⟩, true, [], false, false, false, false, 0, 20, colorWhite, false, false, 720⟩
          (some 1) [] (some 1)
          (.node 1 "Old" .square colorWhite 20 0 .nil "Hello")).2.2.2.textBuffer :=
  c5_commit_amended _ (some 1) [] (.node 1 "Old" .square colorWhite 20 0 .nil "Hello")
    (Or.inr ⟨by norm_num [checkCollisionPointRec, labelFieldBounds], rfl⟩)

/-! ## Field-preservation lemmas for the drain -/

theorem applyRequest_activeSettingsId (s : State) (r : EditorRequest) :
    (applyRequest s r).activeSettingsId = s.activeSettingsId := by
  cases r <;> simp [applyRequest, State.newId]

theorem applyRequest_activeTextboxId (s : State) (r : EditorRequest) :
    (applyRequest s r).activeTextboxId = s.activeTextboxId := by
  cases r <;> simp [applyRequest, State.newId]

theorem foldl_applyRequest_activeSettingsId (ops : List EditorRequest) (s : State) :
    (ops.foldl applyRequest s).activeSettingsId = s.activeSettingsId := by
  induction ops generalizing s with
  | nil => rfl
  | cons r rest ih => rw [List.foldl_cons, ih, applyRequest_activeSettingsId]

theorem foldl_applyRequest_activeTextboxId (ops : List EditorRequest) (s : State) :
    (ops.foldl applyRequest s).activeTextboxId = s.activeTextboxId := by
  induction ops generalizing s with
  | nil => rfl
  | cons r rest ih => rw [List.foldl_cons, ih, applyRequest_activeTextboxId]

theorem step_activeSettingsId (s : State) (dt : ℚ) :
    (step s dt).activeSettingsId = s.activeSettingsId := by
  unfold step
  split
  · rfl
  · exact foldl_applyRequest_activeSettingsId _ _

theorem step_activeTextboxId (s : State) (dt : ℚ) :
    (step s dt).activeTextboxId = s.activeTextboxId := by
  unfold step
  split
  · rfl
  · exact foldl_applyRequest_activeTextboxId _ _

theorem panel_delete_clears_settings (inp : PanelInput) (asid : Option Nat)
    (reqs : List EditorRequest) (atid : Option Nat) (obj : SceneObject) (d : Nat)
    (henq : EditorRequest.deleteNode d ∈ (drawSettingsPanel inp asid reqs atid obj).2.1)
    (hnew : EditorRequest.deleteNode d ∉ reqs) :
    (drawSettingsPanel inp asid reqs atid obj).1 = none := by
  unfold drawSettingsPanel at henq ⊢
  cases hdel : inp.deleteNodeClicked with
  | true => simp [hdel]
  | false =>
    exfalso
    cases hadd : inp.addChildClicked with
    | true =>
      simp only [hdel, hadd, Bool.false_eq_true, if_false, if_true, List.mem_append,
        List.mem_singleton] at henq
      rcases henq with hmem | hbad
      · exact hnew hmem
      · exact EditorRequest.noConfusion hbad
    | false =>
      simp only [hdel, hadd, Bool.false_eq_true, if_false] at henq
      exact hnew henq

theorem drawTick_cases (inp : PanelInput) (s : State) :
    drawTick inp s = s ∨
      ∃ i obj, s.activeSettingsId = some i ∧ findObjectById s.sceneObjects i = some obj ∧
        drawTick inp s = { s with
          activeSettingsId := (drawSettingsPanel inp (some i) s.requests s.activeTextboxId obj).1
          requests := (drawSettingsPanel inp (some i) s.requests s.activeTextboxId obj).2.1
          activeTextboxId := (drawSettingsPanel inp (some i) s.requests s.activeTextboxId obj).2.2.1
          sceneObjects := (updateFirstById s.sceneObjects i
            (fun _ => (drawSettingsPanel inp (some i) s.requests s.activeTextboxId obj).2.2.2)).1 } := by
  cases hsid : s.activeSettingsId with
  | none =>
    left
    unfold drawTick
    rw [hsid]
  | some i =>
    have hred : drawTick inp s = (match findObjectById s.sceneObjects i with
        | none => s
        | some obj =>
          { s with
            activeSettingsId := (drawSettingsPanel inp (some i) s.requests s.activeTextboxId obj).1
            requests := (drawSettingsPanel inp (some i) s.requests s.activeTextboxId obj).2.1
            activeTextboxId :=
              (drawSettingsPanel inp (some i) s.requests s.activeTextboxId obj).2.2.1
            sceneObjects := (updateFirstById s.sceneObjects i
              (fun _ =>
                (drawSettingsPanel inp (some i) s.requests s.activeTextboxId obj).2.2.2)).1 }) := by
      unfold drawTick
      rw [hsid]
    cases hfind : findObjectById s.sceneObjects i with
    | none =>
      left
      rw [hfind] at hred
      exact hred
    | some obj =>
      right
      rw [hfind] at hred
      exact ⟨i, obj, rfl, hfind, hred⟩

/-! ## Claim C1 -/

/-- C1: in a tick in which a fresh `DeleteNode` request is enqueued by the
settings panel (it always targets the panel's node, which is both the
settings-active node and — when focused — the edit-focused node) and the
queue is then drained by `step` (which requires `active_textbox_id = none`),
the tick ends with `active_settings_id = none` and
`active_textbox_id = none`: neither optional reference can point at the
removed node. -/
theorem c1_delete_clears_active_refs (inp : PanelInput) (s : State) (dt : ℚ) (d : Nat)
    (henq : EditorRequest.deleteNode d ∈ (drawTick inp s).requests)
    (hnew : EditorRequest.deleteNode d ∉ s.requests)
    (hdrain : (drawTick inp s).activeTextboxId = none) :
    (step (drawTick inp s) dt).activeSettingsId = none ∧
      (step (drawTick inp s) dt).activeTextboxId = none := by
  have ht : (step (drawTick inp s) dt).activeTextboxId = none := by
    rw [step_activeTextboxId]
    exact hdrain
  refine ⟨?_, ht⟩
  rw [step_activeSettingsId]
  rcases drawTick_cases inp s with heq | ⟨i, obj, hsid, hfind, heq⟩
  · rw [heq] at henq
    exact absurd henq hnew
  · rw [heq] at henq ⊢
    simp only [] at henq ⊢
    exact panel_delete_clears_settings inp (some i) s.requests s.activeTextboxId obj d henq hnew

/-- Witness for C1 at a concrete input: with node 1 selected, a Delete Node
click enqueues `DeleteNode 1`; after the drain both references are `none`. -/
theorem c1_witness :
    (step (drawTick
          ⟨⟨0, 0⟩, false, [], false, false, false, false, 0, 20, colorWhite, false, true, 720⟩
          { State.new with activeSettingsId := some 1 }) (1 / 60)).activeSettingsId = none ∧
      (step (drawTick
          ⟨⟨0, 0⟩, false, [], false, false, false, false, 0, 20, colorWhite, false, true, 720⟩
          { State.new with activeSettingsId := some 1 }) (1 / 60)).activeTextboxId = none :=
  c1_delete_clears_active_refs _ _ (1 / 60) 1
    (by norm_num [drawTick, State.new, demoForest, findObjectById, SceneObject.new,
      SceneObject.withChildren, drawSettingsPanel, guiTextBoxSafe, checkCollisionPointRec,
      SceneObject.id, SceneObject.textBuffer, SceneObject.withTextBuffer, SceneObject.withShape,
      SceneObject.withRotationSpeed, SceneObject.withColor, shapeFromIndex])
    (by simp [State.new])
    (by norm_num [drawTick, State.new, demoForest, findObjectById, SceneObject.new,
      SceneObject.withChildren, drawSettingsPanel, guiTextBoxSafe, checkCollisionPointRec,
      SceneObject.id, SceneObject.textBuffer, SceneObject.withTextBuffer, SceneObject.withShape,
      SceneObject.withRotationSpeed, SceneObject.withColor, shapeFromIndex])

/-! ## Height lemmas for the layout description -/

mutual
theorem heightSpecObj_ge : ∀ o : SceneObject, ySpacing ≤ heightSpecObj o
  | .node i t sh c rs cr cs tb => by
    cases cs with
    | nil => simp [heightSpecObj]
    | cons c0 f0 =>
      have h1 := heightSpecObj_ge c0
      have h2 := heightsSumF_nonneg f0
      simp only [heightSpecObj, heightsSumF, ne_eq, reduceCtorEq, not_false_iff, if_true]
      linarith
theorem heightsSumF_nonneg : ∀ f : SceneForest, 0 ≤ heightsSumF f
  | .nil => le_refl 0
  | .cons o f => by
    have h1 := heightSpecObj_ge o
    have h2 := heightsSumF_nonneg f
    have h3 : (0 : ℚ) < ySpacing := by norm_num [ySpacing]
    simp only [heightsSumF]
    linarith
end

theorem heightsSumF_pos (o : SceneObject) (f : SceneForest) :
    0 < heightsSumF (.cons o f) := by
  have h1 := heightSpecObj_ge o
  have h2 := heightsSumF_nonneg f
  have h3 : (0 : ℚ) < ySpacing := by norm_num [ySpacing]
  simp only [heightsSumF]
  linarith

/-! ## Agreement between `layout_recursive` and the claimed layout formulas -/

theorem insertList_append (m : PosMap) (a b : List (Nat × Vec2)) :
    insertList m (a ++ b) = insertList (insertList m a) b :=
  List.foldl_append _ _ _ _

mutual
theorem layoutRecursive_eq :
    ∀ (o : SceneObject) (x y0 : ℚ) (m : PosMap),
      layoutRecursive o x y0 y0 m =
        (insertList m (subtreeEntries o x y0), heightSpecObj o, y0 + heightSpecObj o)
  | .node i t sh c rs cr cs tb, x, y0, m => by
    have hce := layoutChildrenLoop_eq cs (x + xSpacing) y0 m
    rw [layoutRecursive]
    simp only [hce]
    cases cs with
    | nil =>
      simp [subtreeEntries, childrenEntries, heightSpecObj, heightsSumF, insertList, ySpacing]
    | cons c0 f0 =>
      have hpos := heightsSumF_pos c0 f0
      simp only [ne_eq, reduceCtorEq, not_false_iff, if_true, hpos, subtreeEntries,
        heightSpecObj, insertList_append]
      simp [insertList]
theorem layoutChildrenLoop_eq :
    ∀ (f : SceneForest) (x y0 : ℚ) (m : PosMap),
      layoutChildrenLoop f x y0 m =
        (insertList m (childrenEntries f x y0), heightsSumF f, y0 + heightsSumF f)
  | .nil, x, y0, m => by
    simp [layoutChildrenLoop, childrenEntries, heightsSumF, insertList]
  | .cons o f, x, y0, m => by
    have h1 := layoutRecursive_eq o x y0 m
    rw [layoutChildrenLoop]
    simp only [h1]
    have h2 := layoutChildrenLoop_eq f x (y0 + heightSpecObj o) (insertList m (subtreeEntries o x y0))
    simp only [h2, childrenEntries, heightsSumF, insertList_append]
    simp [add_assoc]
end

/-! ## Geometric bounds on the laid-out positions -/

mutual
theorem subtreeEntries_y_range :
    ∀ (o : SceneObject) (x y0 : ℚ) (e : Nat × Vec2), e ∈ subtreeEntries o x y0 →
      y0 ≤ e.2.y ∧ e.2.y ≤ y0 + heightSpecObj o - ySpacing
  | .node i t sh c rs cr cs tb, x, y0, e, he => by
    cases cs with
    | nil =>
      simp only [subtreeEntries, childrenEntries, List.nil_append, List.mem_singleton] at he
      subst he
      simp [heightSpecObj]
    | cons c0 f0 =>
      rw [subtreeEntries] at he
      rcases List.mem_append.mp he with hin | hroot
      · have hr := childrenEntries_y_range (.cons c0 f0) (x + xSpacing) y0 e hin
        simpa [heightSpecObj] using hr
      · rw [List.mem_singleton] at hroot
        subst hroot
        have hge : ySpacing ≤ heightsSumF (.cons c0 f0) := by
          have h1 := heightSpecObj_ge c0
          have h2 := heightsSumF_nonneg f0
          simp only [heightsSumF]
          linarith
        have hy : (0 : ℚ) < ySpacing := by norm_num [ySpacing]
        simp only [heightSpecObj, ne_eq, reduceCtorEq, not_false_iff, if_true]
        constructor
        · dsimp only
          linarith
        · dsimp only
          linarith
theorem childrenEntries_y_range :
    ∀ (f : SceneForest) (x y0 : ℚ) (e : Nat × Vec2), e ∈ childrenEntries f x y0 →
      y0 ≤ e.2.y ∧ e.2.y ≤ y0 + heightsSumF f - ySpacing
  | .nil, _, _, _, he => by simp [childrenEntries] at he
  | .cons o f, x, y0, e, he => by
    rw [childrenEntries] at he
    rcases List.mem_append.mp he with h1 | h2
    · have hr := subtreeEntries_y_range o x y0 e h1
      have hn := heightsSumF_nonneg f
      simp only [heightsSumF]
      exact ⟨hr.1, by linarith [hr.2]⟩
    · have hr := childrenEntries_y_range f x (y0 + heightSpecObj o) e h2
      have hg := heightSpecObj_ge o
      have hy : (0 : ℚ) < ySpacing := by norm_num [ySpacing]
      simp only [heightsSumF]
      exact ⟨by linarith [hr.1], by linarith [hr.2]⟩
end

mutual
theorem subtreeEntries_x_lattice :
    ∀ (o : SceneObject) (x y0 : ℚ) (e : Nat × Vec2), e ∈ subtreeEntries o x y0 →
      ∃ k : ℕ, e.2.x = x + xSpacing * k
  | .node i t sh c rs cr cs tb, x, y0, e, he => by
    rw [subtreeEntries] at he
    rcases List.mem_append.mp he with hin | hroot
    · obtain ⟨k, hk⟩ := childrenEntries_x_lattice cs (x + xSpacing) y0 e hin
      exact ⟨k + 1, by push_cast [hk]; ring⟩
    · rw [List.mem_singleton] at hroot
      subst hroot
      refine ⟨0, ?_⟩
      cases cs <;> simp
theorem childrenEntries_x_lattice :
    ∀ (f : SceneForest) (x y0 : ℚ) (e : Nat × Vec2), e ∈ childrenEntries f x y0 →
      ∃ k : ℕ, e.2.x = x + xSpacing * k
  | .nil, _, _, _, he => by simp [childrenEntries] at he
  | .cons o f, x, y0, e, he => by
    rw [childrenEntries] at he
    rcases List.mem_append.mp he with h1 | h2
    · exact subtreeEntries_x_lattice o x y0 e h1
    · exact childrenEntries_x_lattice f x (y0 + heightSpecObj o) e h2
end

mutual
theorem subtreeEntries_pairwise :
    ∀ (o : SceneObject) (x y0 : ℚ),
      (subtreeEntries o x y0).Pairwise
        (fun a b => xSpacing ≤ |a.2.x - b.2.x| ∨ ySpacing ≤ |a.2.y - b.2.y|)
  | .node i t sh c rs cr cs tb, x, y0 => by
    rw [subtreeEntries]
    rw [List.pairwise_append]
    refine ⟨childrenEntries_pairwise cs (x + xSpacing) y0, List.pairwise_singleton _ _, ?_⟩
    intro e1 he1 e2 he2
    rw [List.mem_singleton] at he2
    subst he2
    obtain ⟨k, hk⟩ := childrenEntries_x_lattice cs (x + xSpacing) y0 e1 he1
    left
    have hx : (0 : ℚ) < xSpacing := by norm_num [xSpacing]
    have hk2 : (0 : ℚ) ≤ xSpacing * k := by positivity
    have he2x : (if cs ≠ SceneForest.nil
        then (⟨x, y0 + heightsSumF cs / 2 - ySpacing / 2⟩ : Vec2)
        else ⟨x, y0⟩).x = x := by
      cases cs <;> simp
    rw [he2x, hk]
    rw [abs_of_nonneg (by linarith)]
    linarith
theorem childrenEntries_pairwise :
    ∀ (f : SceneForest) (x y0 : ℚ),
      (childrenEntries f x y0).Pairwise
        (fun a b => xSpacing ≤ |a.2.x - b.2.x| ∨ ySpacing ≤ |a.2.y - b.2.y|)
  | .nil, _, _ => by simp [childrenEntries]
  | .cons o f, x, y0 => by
    rw [childrenEntries]
    rw [List.pairwise_append]
    refine ⟨subtreeEntries_pairwise o x y0,
      childrenEntries_pairwise f x (y0 + heightSpecObj o), ?_⟩
    intro e1 he1 e2 he2
    right
    have h1 := (subtreeEntries_y_range o x y0 e1 he1).2
    have h2 := (childrenEntries_y_range f x (y0 + heightSpecObj o) e2 he2).1
    have hy : (0 : ℚ) < ySpacing := by norm_num [ySpacing]
    rw [abs_sub_comm, abs_of_nonneg (by linarith)]
    linarith
end

/-! ## Keys of the layout map -/

mutual
theorem subtreeEntries_keys_perm :
    ∀ (o : SceneObject) (x y0 : ℚ),
      ((subtreeEntries o x y0).map Prod.fst).Perm (idsObj o)
  | .node i t sh c rs cr cs tb, x, y0 => by
    rw [subtreeEntries, idsObj_node]
    rw [List.map_append]
    have h1 := childrenEntries_keys_perm cs (x + xSpacing) y0
    have h2 : ((([(i, if cs ≠ SceneForest.nil
        then (⟨x, y0 + heightsSumF cs / 2 - ySpacing / 2⟩ : Vec2)
        else ⟨x, y0⟩)]).map Prod.fst) : List Nat) = [i] := by simp
    rw [h2]
    exact (h1.append_right [i]).trans (List.perm_append_singleton i (idsForest cs))
theorem childrenEntries_keys_perm :
    ∀ (f : SceneForest) (x y0 : ℚ),
      ((childrenEntries f x y0).map Prod.fst).Perm (idsForest f)
  | .nil, _, _ => by simp [childrenEntries, idsForest_nil]
  | .cons o f, x, y0 => by
    rw [childrenEntries, idsForest_cons, List.map_append]
    exact (subtreeEntries_keys_perm o x y0).append
      (childrenEntries_keys_perm f x (y0 + heightSpecObj o))
end

/-! ## Insert/lookup lemmas for the position map -/

theorem insertPos_not_mem (m : PosMap) (k : Nat) (v : Vec2)
    (h : k ∉ m.map Prod.fst) : insertPos m k v = m ++ [(k, v)] := by
  unfold insertPos
  rw [if_neg]
  intro hc
  rw [List.any_eq_true] at hc
  obtain ⟨p, hp, he⟩ := hc
  rw [decide_eq_true_eq] at he
  exact h (List.mem_map.mpr ⟨p, hp, he⟩)

theorem insertList_fresh :
    ∀ (es : List (Nat × Vec2)) (m : PosMap),
      (m.map Prod.fst ++ es.map Prod.fst).Nodup → insertList m es = m ++ es
  | [], m, _ => by simp [insertList]
  | e :: rest, m, h => by
    have hperm : (m.map Prod.fst ++ (e :: rest).map Prod.fst).Perm
        (e.1 :: (m.map Prod.fst ++ rest.map Prod.fst)) := by
      simp only [List.map_cons]
      exact List.perm_middle
    have h2 := hperm.nodup_iff.mp h
    rw [List.nodup_cons] at h2
    have hnot : e.1 ∉ m.map Prod.fst := fun hm => h2.1 (List.mem_append.mpr (Or.inl hm))
    have hstep : insertList m (e :: rest) = insertList (m ++ [(e.1, e.2)]) rest := by
      simp [insertList, insertPos_not_mem m e.1 e.2 hnot]
    rw [hstep]
    have h3 : ((m ++ [(e.1, e.2)]).map Prod.fst ++ rest.map Prod.fst).Nodup := by
      have hperm2 : ((m ++ [(e.1, e.2)]).map Prod.fst ++ rest.map Prod.fst).Perm
          (e.1 :: (m.map Prod.fst ++ rest.map Prod.fst)) := by
        have hx : ((m ++ [(e.1, e.2)]).map Prod.fst ++ rest.map Prod.fst) =
            m.map Prod.fst ++ (e.1 :: rest.map Prod.fst) := by
          simp
        rw [hx]
        exact List.perm_middle
      exact hperm2.nodup_iff.mpr (List.nodup_cons.mpr h2)
    rw [insertList_fresh rest (m ++ [(e.1, e.2)]) h3]
    simp

theorem lookupPos_mem :
    ∀ (m : PosMap) (k : Nat) (v : Vec2), lookupPos m k = some v → (k, v) ∈ m
  | [], _, _, h => by simp [lookupPos] at h
  | p :: m, k, v, h => by
    rw [lookupPos] at h
    by_cases hp : p.1 = k
    · rw [if_pos hp] at h
      rw [Option.some.injEq] at h
      subst h
      subst hp
      exact List.mem_cons_self _ _
    · rw [if_neg hp] at h
      exact List.mem_cons_of_mem _ (lookupPos_mem m k v h)

theorem lookupPos_isSome_of_mem :
    ∀ (m : PosMap) (k : Nat), k ∈ m.map Prod.fst → ∃ v, lookupPos m k = some v
  | [], _, h => by simp at h
  | p :: m, k, h => by
    rw [lookupPos]
    by_cases hp : p.1 = k
    · exact ⟨p.2, by rw [if_pos hp]⟩
    · rw [List.map_cons, List.mem_cons] at h
      rcases h with h | h
      · exact absurd h.symm hp
      · rw [if_neg hp]
        exact lookupPos_isSome_of_mem m k h

/-! ## Claim C3 -/

/-- C3: the layout function satisfies the claimed formulas: at every call
site (`y_start = *y_cursor` on entry) the positions map gains exactly the
described entries — each child subtree laid out at `x + X_SPACING` with the
cursor threaded pre-order across siblings, a node with children centered at
`(x, y_start + total_children_height/2 - Y_SPACING/2)`, a childless node at
the cursor — the returned extent is the children's total height (or
Y_SPACING for a leaf) and the cursor advances by exactly that extent;
moreover every position of an earlier sibling's subtree lies at least
Y_SPACING below every position of the later siblings' subtrees. -/
theorem c3_layout_formulas :
    (∀ (o : SceneObject) (x y0 : ℚ) (m : PosMap),
      layoutRecursive o x y0 y0 m =
        (insertList m (subtreeEntries o x y0), heightSpecObj o, y0 + heightSpecObj o)) ∧
    (∀ (f : SceneForest) (x y0 : ℚ) (m : PosMap),
      layoutChildrenLoop f x y0 m =
        (insertList m (childrenEntries f x y0), heightsSumF f, y0 + heightsSumF f)) ∧
    (∀ (o : SceneObject) (f : SceneForest) (x y0 : ℚ),
      ∀ e1 ∈ subtreeEntries o x y0, ∀ e2 ∈ childrenEntries f x (y0 + heightSpecObj o),
        e1.2.y + ySpacing ≤ e2.2.y) := by
  refine ⟨layoutRecursive_eq, layoutChildrenLoop_eq, ?_⟩
  intro o f x y0 e1 he1 e2 he2
  have h1 := (subtreeEntries_y_range o x y0 e1 he1).2
  have h2 := (childrenEntries_y_range f x (y0 + heightSpecObj o) e2 he2).1
  linarith

/-! ## Claim C7 -/

theorem layoutForest_eq_entries (f : SceneForest) (h : (idsForest f).Nodup) :
    layoutForest f = childrenEntries f 200 100 := by
  unfold layoutForest
  rw [layoutChildrenLoop_eq]
  have hkeys := childrenEntries_keys_perm f 200 100
  have hnodup : ((childrenEntries f 200 100).map Prod.fst).Nodup := hkeys.nodup_iff.mpr h
  have h2 := insertList_fresh (childrenEntries f 200 100) [] (by simpa using hnodup)
  simpa using h2

/-- C7: for a forest with pairwise-distinct ids, the layout map holds exactly
one position per node: its key list is a permutation of the forest's id list,
has no duplicate, and every id of the forest is bound to a position. -/
theorem c7_layout_exactly_one_position (f : SceneForest) (h : (idsForest f).Nodup) :
    ((layoutForest f).map Prod.fst).Perm (idsForest f) ∧
      ((layoutForest f).map Prod.fst).Nodup ∧
      (∀ i ∈ idsForest f, ∃ v, lookupPos (layoutForest f) i = some v) := by
  rw [layoutForest_eq_entries f h]
  have hkeys := childrenEntries_keys_perm f 200 100
  refine ⟨hkeys, hkeys.nodup_iff.mpr h, ?_⟩
  intro i hi
  exact lookupPos_isSome_of_mem _ i (hkeys.mem_iff.mpr hi)

/-- Witness for C7 at a concrete input: the seeded demo forest. -/
theorem c7_witness :
    ((layoutForest demoForest).map Prod.fst).Perm (idsForest demoForest) ∧
      ((layoutForest demoForest).map Prod.fst).Nodup ∧
      (∀ i ∈ idsForest demoForest, ∃ v, lookupPos (layoutForest demoForest) i = some v) :=
  c7_layout_exactly_one_position demoForest (by decide)

/-! ## find? helpers for hit-testing -/

theorem find?_append_eq {α : Type} (p : α → Bool) :
    ∀ (l1 l2 : List α), (l1 ++ l2).find? p =
      (match l1.find? p with
       | some a => some a
       | none => l2.find? p)
  | [], l2 => by simp
  | a :: l1, l2 => by
    cases hp : p a with
    | true => simp [List.find?_cons_of_pos _ hp]
    | false =>
      have hnp : ¬ p a := by simp [hp]
      simp only [List.cons_append, List.find?_cons_of_neg _ hnp]
      exact find?_append_eq p l1 l2

theorem find?_eq_some_of_mem_unique {α : Type} (p : α → Bool) :
    ∀ (l : List α) (a : α), a ∈ l → p a = true → (∀ b ∈ l, p b = true → b = a) →
      l.find? p = some a
  | [], a, ha, _, _ => absurd ha (List.not_mem_nil a)
  | x :: l, a, ha, hpa, huniq => by
    cases hx : p x with
    | true =>
      have hxa : x = a := huniq x (List.mem_cons_self x l) hx
      rw [List.find?_cons_of_pos _ hx, hxa]
    | false =>
      have hne : a ≠ x := by
        intro he
        rw [he, hx] at hpa
        exact Bool.noConfusion hpa
      have ha2 : a ∈ l := by
        rcases List.mem_cons.mp ha with h | h
        · exact absurd h hne
        · exact h
      rw [List.find?_cons_of_neg _ (by simp [hx])]
      exact find?_eq_some_of_mem_unique p l a ha2 hpa
        (fun b hb hpb => huniq b (List.mem_cons_of_mem _ hb) hpb)

mutual
theorem findClickedObject_eq_find? :
    ∀ (o : SceneObject) (wp : Vec2) (m : PosMap),
      findClickedObject o wp m =
        ((preorderObj o).find? (fun n => hitTest m wp n.id)).map SceneObject.id
  | .node i t sh c rs cr cs tb, wp, m => by
    have hloop := findClickedLoop_eq_find? cs wp m
    cases hl : lookupPos m i with
    | none =>
      have hp : hitTest m wp (SceneObject.node i t sh c rs cr cs tb).id = false := by
        simp [hitTest, SceneObject.id, hl]
      rw [findClickedObject, preorderObj, hl, List.find?_cons, hp]
      exact hloop
    | some q =>
      by_cases hd : distSq wp q < clickRadius ^ 2
      · have hp : hitTest m wp (SceneObject.node i t sh c rs cr cs tb).id = true := by
          simp [hitTest, SceneObject.id, hl, hd]
        rw [findClickedObject, preorderObj, hl, List.find?_cons, hp]
        have hred : (if distSq wp q < clickRadius ^ 2 then some i else findClickedLoop cs wp m) =
            some i := if_pos hd
        exact hred
      · have hp : hitTest m wp (SceneObject.node i t sh c rs cr cs tb).id = false := by
          simp [hitTest, SceneObject.id, hl, hd]
        rw [findClickedObject, preorderObj, hl, List.find?_cons, hp]
        have hred : (if distSq wp q < clickRadius ^ 2 then some i else findClickedLoop cs wp m) =
            findClickedLoop cs wp m := if_neg hd
        exact hred.trans hloop
theorem findClickedLoop_eq_find? :
    ∀ (f : SceneForest) (wp : Vec2) (m : PosMap),
      findClickedLoop f wp m =
        ((preorderForest f).find? (fun n => hitTest m wp n.id)).map SceneObject.id
  | .nil, wp, m => by simp [findClickedLoop, preorderForest]
  | .cons o f, wp, m => by
    rw [findClickedLoop, preorderForest, find?_append_eq, findClickedObject_eq_find? o wp m,
      findClickedLoop_eq_find? f wp m]
    cases hA : (preorderObj o).find? (fun n => hitTest m wp n.id) with
    | some a => simp [hA]
    | none => simp [hA]
end

theorem distSq_far (a b : Vec2)
    (h : xSpacing ≤ |a.x - b.x| ∨ ySpacing ≤ |a.y - b.y|) :
    clickRadius ^ 2 < distSq a b := by
  have hax := sq_nonneg (a.x - b.x)
  have hay := sq_nonneg (a.y - b.y)
  unfold distSq clickRadius
  rcases h with h | h
  · have h0 : (250 : ℚ) ≤ |a.x - b.x| := by norm_num [xSpacing] at h; exact h
    have h2 : ((250 : ℚ)) ^ 2 ≤ |a.x - b.x| ^ 2 := pow_le_pow_left₀ (by norm_num) h0 2
    rw [sq_abs] at h2
    nlinarith
  · have h0 : (120 : ℚ) ≤ |a.y - b.y| := by norm_num [ySpacing] at h; exact h
    have h2 : ((120 : ℚ)) ^ 2 ≤ |a.y - b.y| ^ 2 := pow_le_pow_left₀ (by norm_num) h0 2
    rw [sq_abs] at h2
    nlinarith

/-! ## Claim C4 -/

/-- C4: `find_clicked_object` scanned over the forest is exactly the
first-match depth-first pre-order search for a node whose laid-out position
lies within the click radius of the query point; that radius (20) is half the
rendered shape size (40); and for a forest with distinct ids, querying
exactly at any node's own laid-out position returns that node's id. -/
theorem c4_hit_testing :
    (∀ (f : SceneForest) (wp : Vec2) (m : PosMap),
      findClickedLoop f wp m =
        ((preorderForest f).find? (fun n => hitTest m wp n.id)).map SceneObject.id) ∧
    clickRadius = shapeSize / 2 ∧
    (∀ (f : SceneForest) (o : SceneObject) (p : Vec2),
      (idsForest f).Nodup → o ∈ preorderForest f →
      lookupPos (layoutForest f) o.id = some p →
      findClickedLoop f p (layoutForest f) = some o.id) := by
  refine ⟨findClickedLoop_eq_find?, by norm_num [clickRadius, shapeSize], ?_⟩
  intro f o p hnodup ho hlook
  have hE : layoutForest f = childrenEntries f 200 100 := layoutForest_eq_entries f hnodup
  rw [hE] at hlook ⊢
  rw [findClickedLoop_eq_find?]
  have hmemE : (o.id, p) ∈ childrenEntries f 200 100 := lookupPos_mem _ o.id p hlook
  have hpair := childrenEntries_pairwise f 200 100
  have hpo : hitTest (childrenEntries f 200 100) p o.id = true := by
    simp only [hitTest, hlook]
    rw [decide_eq_true_eq]
    have : distSq p p = 0 := by simp [distSq]
    rw [this]
    norm_num [clickRadius]
  have huniq : ∀ b ∈ preorderForest f, hitTest (childrenEntries f 200 100) p b.id = true →
      b = o := by
    intro b hb hhit
    by_cases hbo : b.id = o.id
    · exact List.inj_on_of_nodup_map hnodup hb ho hbo
    · exfalso
      cases hq : lookupPos (childrenEntries f 200 100) b.id with
      | none => simp [hitTest, hq] at hhit
      | some q =>
        have hdist : distSq p q < clickRadius ^ 2 := by
          simp only [hitTest, hq, decide_eq_true_eq] at hhit
          exact hhit
        have hmemb : (b.id, q) ∈ childrenEntries f 200 100 := lookupPos_mem _ b.id q hq
        have hne : ((o.id, p) : Nat × Vec2) ≠ (b.id, q) := by
          intro he
          exact hbo (congrArg Prod.fst he).symm
        have hsym : Symmetric
            (fun a b : Nat × Vec2 => xSpacing ≤ |a.2.x - b.2.x| ∨ ySpacing ≤ |a.2.y - b.2.y|) := by
          intro a b h
          rcases h with h | h
          · left; rwa [abs_sub_comm]
          · right; rwa [abs_sub_comm]
        have hsep := hpair.forall hsym hmemE hmemb hne
        have := distSq_far p q hsep
        linarith
  rw [find?_eq_some_of_mem_unique _ (preorderForest f) o ho hpo huniq]
  rfl

/-- Witness for C4 at a concrete input: querying exactly at the laid-out
position of the seeded root node (id 1, position (200, 220)) hits it. -/
theorem c4_witness :
    findClickedLoop demoForest ⟨200, 220⟩ (layoutForest demoForest) = some 1 :=
  c4_hit_testing.2.2 demoForest
    ((SceneObject.new 1 "Root" .square colorRed).withChildren
      (.cons
        ((SceneObject.new 2 "Data" .circle colorBlue).withChildren
          (.cons (SceneObject.new 4 "Mesh" .square colorYellow)
            (.cons (SceneObject.new 5 "Texture" .triangle colorOrange) .nil)))
        (.cons
          ((SceneObject.new 3 "Render" .triangle colorGreen).withChildren
            (.cons (SceneObject.new 6 "Shader" .circle colorPurple) .nil))
          .nil)))
    ⟨200, 220⟩ (by decide)
    (by simp [demoForest, preorderForest, preorderObj, SceneObject.new, SceneObject.withChildren])
    (by norm_num [layoutForest, layoutChildrenLoop, layoutRecursive, demoForest, SceneObject.new,
      SceneObject.withChildren, SceneObject.id, insertPos, lookupPos, xSpacing, ySpacing] <;> simp)

/-- Witness for C3 at a concrete input: the leaf node 4 laid out at
`(200, 100)` with extent `Y_SPACING`, and the sibling-ordering conjunct
instantiated for leaf 4 followed by leaf 5. -/
theorem c3_witness :
    layoutRecursive (SceneObject.new 4 "Mesh" .square colorYellow) 200 100 100 [] =
      (insertList [] (subtreeEntries (SceneObject.new 4 "Mesh" .square colorYellow) 200 100),
        heightSpecObj (SceneObject.new 4 "Mesh" .square colorYellow),
        100 + heightSpecObj (SceneObject.new 4 "Mesh" .square colorYellow)) ∧
      (((4 : Nat), (⟨200, 100⟩ : Vec2)).2.y + ySpacing ≤
        ((5 : Nat), (⟨200, 220⟩ : Vec2)).2.y) :=
  ⟨c3_layout_formulas.1 (SceneObject.new 4 "Mesh" .square colorYellow) 200 100 [],
   c3_layout_formulas.2.2 (SceneObject.new 4 "Mesh" .square colorYellow)
     (.cons (SceneObject.new 5 "Texture" .triangle colorOrange) .nil) 200 100
     ((4 : Nat), (⟨200, 100⟩ : Vec2))
     (by norm_num [subtreeEntries, childrenEntries, SceneObject.new])
     ((5 : Nat), (⟨200, 220⟩ : Vec2))
     (by norm_num [subtreeEntries, childrenEntries, heightSpecObj, SceneObject.new, ySpacing])⟩
